import Mathlib

set_option maxHeartbeats 1000000

namespace RAGStack

/-! Shallow embedding of the RAG-stack ingestion pipeline.

The ETL stage (src/etl/app.py) extracts text from inbox files, archives the
original, and emits a JSON sidecar beside the archived file plus a copy in a
staging directory.  The sync stage (src/embedder/app.py) drains the staging
directory into a vector index and incrementally re-scans an active document
tree.  External collaborators (OCR engines, the filesystem contents, the HTTP
embedding service, the vector store) are modelled as oracle inputs; the
control flow, branching and side-effect ordering of the Python code are
translated directly. -/

/-! ### Checksum / identity module (src/etl/app.py, build_sidecar line 119)

Python: stable_id = str(uuid.uuid5(uuid.NAMESPACE_URL, f"{archive_path}|{checksum}")).
The hash input is the archive path and the checksum joined by a bar; uuid5
itself is an abstract deterministic digest parameter u. -/

def sidecarKey (archivePath cks : String) : String :=
  archivePath ++ "|" ++ cks

def stable_id (u : String → String) (archivePath cks : String) : String :=
  u (sidecarKey archivePath cks)

/-- Decidable equality on Except results, so concrete runs can be checked by
evaluation. -/
instance exceptDecEq {ε α : Type} [DecidableEq ε] [DecidableEq α] :
    DecidableEq (Except ε α) := fun a b =>
  match a, b with
  | Except.ok x, Except.ok y =>
    if h : x = y then isTrue (by rw [h]) else isFalse (fun hc => h (by injection hc))
  | Except.error x, Except.error y =>
    if h : x = y then isTrue (by rw [h]) else isFalse (fun hc => h (by injection hc))
  | Except.ok _, Except.error _ => isFalse (fun hc => Except.noConfusion hc)
  | Except.error _, Except.ok _ => isFalse (fun hc => Except.noConfusion hc)

/-! ### ETL stage data model (src/etl/app.py)

Filesystem and subprocess side effects of the extraction orchestrator are
recorded as an ordered trace.  A run that stops partway through a file
executes a prefix of the trace. -/

structure Sidecar where
  id : String
  source_path : String
  archived_path : String
  item_type : String
  original_filename : String
  checksum : String
  created_at : String
  updated_at : String
  text : String
  metadata : List (String × String)
  deriving Repr, DecidableEq

inductive Effect where
  | ensureDir (path : String)
  | createTmp (path : String)
  | moveFile (src dst : String)
  | removeFile (path : String)
  | writeSidecar (path : String) (s : Sidecar)
  | copySidecar (src dst : String)
  | logFail (path : String)
  deriving Repr, DecidableEq

def TEXT_EXTS : List String := [".txt", ".md", ".rtf"]

def IMG_EXTS : List String := [".png", ".jpg", ".jpeg", ".tif", ".tiff", ".bmp", ".gif", ".webp"]

def PDF_EXTS : List String := [".pdf"]

def EMAIL_EXTS : List String := [".eml"]

/-- Association-list lookup, modelling Python dict.get. -/
def lookupA {β : Type} : List (String × β) → String → Option β
  | [], _ => none
  | (k, v) :: rest, key => if k = key then some v else lookupA rest key

/-- Python str.split on a separator character: every occurrence splits, empty
parts are kept. -/
def splitOnChar (sep : Char) : List Char → List (List Char)
  | [] => [[]]
  | c :: rest =>
    if c = sep then [] :: splitOnChar sep rest
    else
      match splitOnChar sep rest with
      | h :: t => (c :: h) :: t
      | [] => [[c]]

/-- Python path.split(os.sep). -/
def splitSlash (s : String) : List String :=
  (splitOnChar '/' s.data).map String.mk

/-- Python os.path.basename: the part after the last slash. -/
def basename (p : String) : String :=
  (splitSlash p).getLastD p

/-- Index of the last occurrence of a character, if any. -/
def lastIdxOf (c : Char) : List Char → Option Nat
  | [] => none
  | x :: xs =>
    match lastIdxOf c xs with
    | some i => some (i + 1)
    | none => if x = c then some 0 else none

/-- Python os.path.splitext on a bare filename: split at the last dot, unless
every character before that dot is itself a dot (leading dots do not start an
extension). -/
def splitext (s : String) : String × String :=
  match lastIdxOf '.' s.data with
  | none => (s, "")
  | some i =>
    if (s.data.take i).all (fun c => c = '.') then (s, "")
    else (String.mk (s.data.take i), String.mk (s.data.drop i))

/-- ASCII lowercasing of one character, as Python str.lower acts on the
ASCII filenames handled here. -/
def lowerChar (c : Char) : Char :=
  if 65 ≤ c.toNat ∧ c.toNat ≤ 90 then Char.ofNat (c.toNat + 32) else c

/-- Python str.lower. -/
def lowerStr (s : String) : String := String.mk (s.data.map lowerChar)

def startsWithSlash (b : String) : Bool :=
  match b.data with
  | [] => false
  | c :: _ => c = '/'

/-- Python name.startswith for a hidden-file dot. -/
def startsWithDot (b : String) : Bool :=
  match b.data with
  | [] => false
  | c :: _ => c = '.'

def endsWithSlash (a : String) : Bool :=
  match a.data.getLast? with
  | some c => c = '/'
  | none => false

/-- Python os.path.join for two components. -/
def joinPath (a b : String) : String :=
  if startsWithSlash b then b
  else if a = "" then b
  else if endsWithSlash a then a ++ b
  else a ++ "/" ++ b

/-- Outcomes of the external extraction collaborators (OCR engines, email
parser, filesystem reads) for one input file; none models a raised
exception. -/
structure ExtOracle where
  ocrPdfText : Option String
  tmpPath : String
  ocrImageText : Option String
  emailSubject : String
  emailSender : String
  emailTo : String
  emailDate : String
  emailBody : Option String
  fileText : Option String

/-- ocr_pdf (src/etl/app.py lines 46-64): a named temporary file is created
first; OCR and per-page extraction either yield the text or raise.  The
Python finally block is a no-op, so neither branch removes the temporary
file here. -/
def ocr_pdf (o : ExtOracle) : List Effect × Except Unit (String × String) :=
  match o.ocrPdfText with
  | some t => ([Effect.createTmp o.tmpPath], Except.ok (t, o.tmpPath))
  | none => ([Effect.createTmp o.tmpPath], Except.error ())

/-- parse_email result surfaced into metadata (src/etl/app.py lines 72-94):
meta.update(mail_meta) copies every key including the body text. -/
def emailMeta (o : ExtOracle) (body : String) : List (String × String) :=
  [("subject", o.emailSubject), ("from", o.emailSender), ("to", o.emailTo),
   ("date", o.emailDate), ("text", body)]

/-- extract_text (src/etl/app.py lines 97-114): dispatch on the lowercased
extension; PDF records the temporary OCR path under the metadata key
ocr_output. -/
def extract_text (o : ExtOracle) (ext : String) :
    List Effect × Except Unit (String × List (String × String)) :=
  if ext ∈ PDF_EXTS then
    match ocr_pdf o with
    | (tr, Except.ok (t, tmp)) => (tr, Except.ok (t, [("ocr_output", tmp)]))
    | (tr, Except.error e) => (tr, Except.error e)
  else if ext ∈ IMG_EXTS then
    match o.ocrImageText with
    | some t => ([], Except.ok (t, []))
    | none => ([], Except.error ())
  else if ext ∈ EMAIL_EXTS then
    match o.emailBody with
    | some body => ([], Except.ok (body, emailMeta o body))
    | none => ([], Except.error ())
  else if ext ∈ TEXT_EXTS then
    match o.fileText with
    | some t => ([], Except.ok (t, []))
    | none => ([], Except.error ())
  else
    match o.fileText with
    | some t => ([], Except.ok (t, []))
    | none => ([], Except.error ())

/-- build_sidecar (src/etl/app.py lines 117-131).  cks is the streamed
content hash of the source file; when the source vanished the checksum is
empty.  t1 and t2 are the two iso_now() readings for created_at and
updated_at; both are taken at this extraction, no earlier sidecar is
consulted. -/
def build_sidecar (u : String → String) (srcPath archivePath itemType text : String)
    (meta : List (String × String)) (cks : String) (srcExists : Bool)
    (t1 t2 : String) : Sidecar :=
  let c := if srcExists then cks else ""
  { id := stable_id u archivePath c
    source_path := srcPath
    archived_path := archivePath
    item_type := itemType
    original_filename := basename srcPath
    checksum := c
    created_at := t1
    updated_at := t2
    text := text
    metadata := meta }

structure EtlConfig where
  archiveDir : String
  stagingDir : String

/-- process_file (src/etl/app.py lines 134-156).  On extraction failure the
exception propagates and only the directory creations and the extraction
trace happened.  On success the effect order is: archive move, then removal
of the temporary OCR output when the metadata names one (the file was just
created in this run and still exists, matching the os.path.exists guard),
then the sidecar write beside the archive, then the copy into staging. -/
def process_file (u : String → String) (cfg : EtlConfig) (o : ExtOracle)
    (srcExists : Bool) (cks t1 t2 : String)
    (srcPath relDir filename : String) : List Effect × Except Unit Sidecar :=
  let itemType := if relDir = "" then "unknown"
    else (splitSlash relDir).headD "unknown"
  let archiveSubdir := joinPath cfg.archiveDir relDir
  let dirs := [Effect.ensureDir archiveSubdir, Effect.ensureDir cfg.stagingDir]
  let archivedPath := joinPath archiveSubdir filename
  let ext := (splitext (lowerStr filename)).2
  match extract_text o ext with
  | (tr, Except.error _) => (dirs ++ tr, Except.error ())
  | (tr, Except.ok (text, meta)) =>
    let sc := build_sidecar u srcPath archivedPath itemType text meta cks srcExists t1 t2
    let sidecarName := (splitext filename).1 ++ ".json"
    let sap := joinPath archiveSubdir sidecarName
    let ssp := joinPath cfg.stagingDir sidecarName
    let cleanup := match lookupA meta "ocr_output" with
      | some tmp => if tmp = "" then [] else [Effect.removeFile tmp]
      | none => []
    (dirs ++ tr ++ [Effect.moveFile srcPath archivedPath] ++ cleanup
      ++ [Effect.writeSidecar sap sc, Effect.copySidecar sap ssp],
     Except.ok sc)

/-- One inbox file together with the oracle outcomes of its external
collaborators. -/
structure InboxEntry where
  srcPath : String
  relDir : String
  name : String
  srcExists : Bool
  cks : String
  t1 : String
  t2 : String
  oracle : ExtOracle

/-- scan_once (src/etl/app.py lines 159-171): hidden files are skipped; each
remaining file is processed under a per-file exception handler that logs the
failure and continues with the rest of the walk. -/
def scan_once (u : String → String) (cfg : EtlConfig) : List InboxEntry → List Effect
  | [] => []
  | e :: rest =>
    if startsWithDot e.name then scan_once u cfg rest
    else
      match process_file u cfg e.oracle e.srcExists e.cks e.t1 e.t2 e.srcPath e.relDir e.name with
      | (tr, Except.ok _) => tr ++ scan_once u cfg rest
      | (tr, Except.error _) => tr ++ [Effect.logFail e.srcPath] ++ scan_once u cfg rest

/-! ### Sync stage data model (src/embedder/app.py) -/

/-- Properties sent to the vector index by ingest_json / scan_active_files. -/
structure Props where
  text : String
  item_type : String
  source_path : String
  archived_path : String
  checksum : String
  created_at : String
  updated_at : String
  deriving Repr, DecidableEq

/-- A parsed HTTP response of the embedding service: status code and the
embedding field when it is a list.  The request itself raising (service not
configured or unreachable) is modelled by the caller passing none. -/
structure EmbedResponse where
  status : Nat
  embedding : Option (List Int)
  deriving Repr, DecidableEq

/-- embed_text (src/embedder/app.py lines 34-43): a non-200 status or a
response without an embedding list raises; only a successful service
response yields a vector.  There is no fallback branch. -/
def embed_text (resp : Option EmbedResponse) : Except Unit (List Int) :=
  match resp with
  | none => Except.error ()
  | some r =>
    if r.status ≠ 200 then Except.error ()
    else
      match r.embedding with
      | some v => Except.ok v
      | none => Except.error ()

/-- Effects of the sync stage, in execution order. -/
inductive EmbEffect where
  | embedCall (text : String)
  | upsertAttempt (id : String) (props : Props)
  | unlink (path : String)
  | logSkip (path : String)
  | logEmbFail (path : String)
  deriving Repr, DecidableEq

/-- External collaborators of the sync stage: the embedding service response
per text, the vector store's answer per upserted id, and UUID parsing. -/
structure EmbOracle where
  embedResp : String → Option EmbedResponse
  upsertOk : String → Bool
  isUuid : String → Bool
  canon : String → String
  uuid5 : String → String
  now : String

/-- normalize_uuid (src/embedder/app.py lines 142-146). -/
def normalize_uuid (o : EmbOracle) (raw : String) : String :=
  if o.isUuid raw then o.canon raw else o.uuid5 raw

/-- A staging sidecar as read by json.load; absent keys are none, an absent
text key is the empty string (data.get with default). -/
structure RawSidecar where
  id : Option String
  text : String
  item_type : Option String
  source_path : Option String
  archived_path : Option String
  checksum : Option String
  created_at : Option String
  deriving Repr, DecidableEq

/-- The object id chosen by ingest_json line 153: data.get("id") or str(path),
where a missing or empty id falls back to the path. -/
def ingestId (o : EmbOracle) (path : String) (d : RawSidecar) : String :=
  normalize_uuid o (match d.id with
    | some s => if s = "" then path else s
    | none => path)

/-- Properties built by ingest_json lines 157-165: created_at is taken from
the sidecar when present, updated_at is always the current time. -/
def props_of (d : RawSidecar) (now : String) : Props :=
  { text := d.text
    item_type := d.item_type.getD "unknown"
    source_path := d.source_path.getD ""
    archived_path := d.archived_path.getD ""
    checksum := d.checksum.getD ""
    created_at := d.created_at.getD now
    updated_at := now }

/-- ingest_json (src/embedder/app.py lines 149-167): unparsable JSON raises;
empty text is a logged skip returning normally; otherwise the text is
embedded and the object upserted, either step raising on failure. -/
def ingest_json (o : EmbOracle) (path : String) (content : Option RawSidecar) :
    List EmbEffect × Except Unit Unit :=
  match content with
  | none => ([], Except.error ())
  | some d =>
    if d.text = "" then ([EmbEffect.logSkip path], Except.ok ())
    else
      match embed_text (o.embedResp d.text) with
      | Except.error _ => ([EmbEffect.embedCall d.text], Except.error ())
      | Except.ok _ =>
        if o.upsertOk (ingestId o path d) then
          ([EmbEffect.embedCall d.text,
            EmbEffect.upsertAttempt (ingestId o path d) (props_of d o.now)],
           Except.ok ())
        else
          ([EmbEffect.embedCall d.text,
            EmbEffect.upsertAttempt (ingestId o path d) (props_of d o.now)],
           Except.error ())

/-- process_staging_file (src/embedder/app.py lines 170-173): the staging
file is unlinked only after ingest_json returned normally. -/
def process_staging_file (o : EmbOracle) (path : String) (content : Option RawSidecar) :
    List EmbEffect × Except Unit Unit :=
  match ingest_json o path content with
  | (tr, Except.ok _) => (tr ++ [EmbEffect.unlink path], Except.ok ())
  | (tr, Except.error e) => (tr, Except.error e)

/-- scan_staging (src/embedder/app.py lines 176-181): every staging file is
processed under a per-file exception handler that logs the failure and
continues with the remaining files. -/
def scan_staging (o : EmbOracle) : List (String × Option RawSidecar) → List EmbEffect
  | [] => []
  | (p, c) :: rest =>
    match process_staging_file o p c with
    | (tr, Except.ok _) => tr ++ scan_staging o rest
    | (tr, Except.error _) => tr ++ [EmbEffect.logEmbFail p] ++ scan_staging o rest

/-- One entry of the active document walk: path metadata plus the outcome of
reading the file (none models an unreadable file). -/
structure ActiveFile where
  path : String
  isDir : Bool
  suffix : String
  mtime : Nat
  readText : Option String

/-- The watermark guard of scan_active_files line 192: key in state and
state[key] >= mtime. -/
def isStale (st : List (String × Nat)) (key : String) (mtime : Nat) : Bool :=
  match lookupA st key with
  | some w => decide (mtime ≤ w)
  | none => false

/-- Python dict assignment state[key] = mtime. -/
def insertW : List (String × Nat) → String → Nat → List (String × Nat)
  | [], key, v => [(key, v)]
  | (k, w) :: rest, key, v =>
    if k = key then (k, v) :: rest else (k, w) :: insertW rest key v

/-- Properties built for an active file (src/embedder/app.py lines 197-205). -/
def activeProps (o : EmbOracle) (key text : String) : Props :=
  { text := text
    item_type := "active"
    source_path := key
    archived_path := ""
    checksum := ""
    created_at := o.now
    updated_at := o.now }

/-- scan_active_files (src/embedder/app.py lines 184-212).  Directories and
unsupported suffixes are skipped, as are files whose watermark is current.
The file read and the embed_text call happen outside the try block, so their
failure propagates out of the scan; only the upsert is guarded, its failure
being logged with the watermark left unchanged before continuing. -/
def scan_active_files (o : EmbOracle) :
    List ActiveFile → List (String × Nat) →
    List (String × Nat) × List EmbEffect × Except Unit Unit
  | [], st => (st, [], Except.ok ())
  | f :: rest, st =>
    if f.isDir = true ∨ (f.suffix ≠ ".md" ∧ f.suffix ≠ ".txt") then
      scan_active_files o rest st
    else if isStale st f.path f.mtime = true then
      scan_active_files o rest st
    else
      match f.readText with
      | none => (st, [], Except.error ())
      | some text =>
        match embed_text (o.embedResp text) with
        | Except.error _ => (st, [EmbEffect.embedCall text], Except.error ())
        | Except.ok _ =>
          if o.upsertOk (normalize_uuid o f.path) then
            let res := scan_active_files o rest (insertW st f.path f.mtime)
            (res.1,
             EmbEffect.embedCall text ::
               EmbEffect.upsertAttempt (normalize_uuid o f.path) (activeProps o f.path text) ::
               res.2.1,
             res.2.2)
          else
            let res := scan_active_files o rest st
            (res.1,
             EmbEffect.embedCall text ::
               EmbEffect.upsertAttempt (normalize_uuid o f.path) (activeProps o f.path text) ::
               EmbEffect.logEmbFail f.path :: res.2.1,
             res.2.2)

/-- One iteration of main_loop (src/embedder/app.py lines 226-235): the
staging scan runs, then the active scan; nothing catches an exception
escaping scan_active_files, so an error result here is an exception that
kills the polling loop. -/
def poll_iteration (o : EmbOracle) (staging : List (String × Option RawSidecar))
    (active : List ActiveFile) (st : List (String × Nat)) :
    List EmbEffect × Except Unit (List (String × Nat)) :=
  let trS := scan_staging o staging
  match scan_active_files o active st with
  | (st2, trA, Except.ok _) => (trS ++ trA, Except.ok st2)
  | (_, trA, Except.error e) => (trS ++ trA, Except.error e)

/-! ### Trace predicates and concrete fixtures -/

/-- Some archive move appears in the trace. -/
def hasMove (tr : List Effect) : Prop := ∃ a b, Effect.moveFile a b ∈ tr

/-- Some sidecar write appears in the trace. -/
def hasWrite (tr : List Effect) : Prop := ∃ a s, Effect.writeSidecar a s ∈ tr

/-- Some staging copy appears in the trace. -/
def hasCopy (tr : List Effect) : Prop := ∃ a b, Effect.copySidecar a b ∈ tr

def uid : String → String := fun s => s

def cfgD : EtlConfig := ⟨"/app/archive", "/app/staging"⟩

def oTxt : ExtOracle := ⟨none, "/tmp/t", none, "", "", "", "", none, some "note text"⟩

def oPdfOk : ExtOracle := ⟨some "hello", "/tmp/ocr.pdf", none, "", "", "", "", none, none⟩

def oPdfFail : ExtOracle := ⟨none, "/tmp/ocr.pdf", none, "", "", "", "", none, none⟩

/-- Embedding service unreachable; vector store accepting. -/
def embSvcDown : EmbOracle :=
  ⟨fun _ => none, fun _ => true, fun _ => false, fun s => s, fun s => s, "T"⟩

/-- Embedding service and vector store both healthy. -/
def embAllOk : EmbOracle :=
  ⟨fun _ => some ⟨200, some [1, 2]⟩, fun _ => true, fun _ => false, fun s => s, fun s => s, "T"⟩

/-- Embedding service healthy; vector store rejecting every upsert. -/
def embStoreDown : EmbOracle :=
  ⟨fun _ => some ⟨200, some [1, 2]⟩, fun _ => false, fun _ => false, fun s => s, fun s => s, "T"⟩

/-- A staging sidecar with empty extracted text. -/
def rawEmpty : RawSidecar := ⟨some "id-0", "", some "receipts", none, none, none, some "C0"⟩

/-- A staging sidecar with non-empty text. -/
def rawHello : RawSidecar :=
  ⟨some "id-1", "hello", some "receipts", some "/app/inbox/a.pdf", some "/app/archive/a.pdf",
   some "c1", some "C1"⟩

def fileA : ActiveFile := ⟨"/app/active_docs/a.md", false, ".md", 5, some "hello"⟩

def fileB : ActiveFile := ⟨"/app/active_docs/b.md", false, ".md", 7, some "world"⟩

/-- An active file whose read raises (unreadable file). -/
def fileBad : ActiveFile := ⟨"/app/active_docs/c.md", false, ".md", 3, none⟩

/-! ### Helper lemmas -/

/-- Splitting at a separator character is unambiguous when neither right part
contains the separator. -/
lemma sep_split_inj (l1 : List Char) : ∀ l2 r1 r2 : List Char,
    ('|' : Char) ∉ r1 → ('|' : Char) ∉ r2 →
    l1 ++ '|' :: r1 = l2 ++ '|' :: r2 → l1 = l2 ∧ r1 = r2 := by
  induction l1 with
  | nil =>
    intro l2 r1 r2 h1 h2 h
    cases l2 with
    | nil => simpa using h
    | cons x xs =>
      simp only [List.nil_append, List.cons_append, List.cons.injEq] at h
      exact absurd (by rw [h.2]; simp : ('|' : Char) ∈ r1) h1
  | cons x xs ih =>
    intro l2 r1 r2 h1 h2 h
    cases l2 with
    | nil =>
      simp only [List.cons_append, List.nil_append, List.cons.injEq] at h
      exact absurd (by rw [← h.2]; simp : ('|' : Char) ∈ r2) h2
    | cons y ys =>
      simp only [List.cons_append, List.cons.injEq] at h
      obtain ⟨hxy, ht⟩ := h
      obtain ⟨he, hr⟩ := ih ys r1 r2 h1 h2 ht
      exact ⟨by rw [hxy, he], hr⟩

lemma sidecarKey_data (p c : String) :
    (sidecarKey p c).data = p.data ++ '|' :: c.data := by
  simp [sidecarKey, String.data_append]

lemma sidecarKey_inj {p1 c1 p2 c2 : String}
    (h1 : ('|' : Char) ∉ c1.data) (h2 : ('|' : Char) ∉ c2.data)
    (h : sidecarKey p1 c1 = sidecarKey p2 c2) : p1 = p2 ∧ c1 = c2 := by
  have hd := congrArg String.data h
  rw [sidecarKey_data, sidecarKey_data] at hd
  obtain ⟨hp, hc⟩ := sep_split_inj p1.data p2.data c1.data c2.data h1 h2 hd
  exact ⟨String.ext hp, String.ext hc⟩

/-- Everything the extraction dispatch itself puts in the trace is a
temporary-file creation. -/
lemma extract_text_trace_benign (o : ExtOracle) (ext : String) :
    ∀ e ∈ (extract_text o ext).1, ∃ p, e = Effect.createTmp p := by
  intro e he
  unfold extract_text at he
  split at he
  · unfold ocr_pdf at he
    cases ho : o.ocrPdfText <;> rw [ho] at he <;> simp at he <;> exact ⟨o.tmpPath, he⟩
  · split at he
    · cases hi : o.ocrImageText <;> rw [hi] at he <;> simp at he
    · split at he
      · cases hb : o.emailBody <;> rw [hb] at he <;> simp at he
      · split at he
        · cases hf : o.fileText <;> rw [hf] at he <;> simp at he
        · cases hf : o.fileText <;> rw [hf] at he <;> simp at he

/-- Members of a full take that lie in the right part force the take past the
left part. -/
lemma length_lt_of_mem_take_right {α : Type} {A B : List α} {n : Nat} {x : α}
    (hxA : x ∉ A) (hx : x ∈ (A ++ B).take n) : A.length < n := by
  rw [List.take_append_eq_append_take] at hx
  rcases List.mem_append.mp hx with h | h
  · exact absurd (List.take_subset _ _ h) hxA
  · by_contra hn
    push_neg at hn
    rw [Nat.sub_eq_zero_of_le hn, List.take_zero] at h
    exact absurd h (List.not_mem_nil x)

/-- A take long enough to reach past the left part contains all of it. -/
lemma mem_take_of_le {α : Type} {A B : List α} {n : Nat} (h : A.length ≤ n) {y : α}
    (hy : y ∈ A) : y ∈ (A ++ B).take n := by
  rw [List.take_append_eq_append_take]
  exact List.mem_append_left _ (by rwa [List.take_of_length_le h])

/-- If a prefix of A ++ B contains an element that only B can supply, it
contains every element of A. -/
lemma mem_take_trans {α : Type} {A B : List α} {n : Nat} {x y : α}
    (hxA : x ∉ A) (hx : x ∈ (A ++ B).take n) (hy : y ∈ A) : y ∈ (A ++ B).take n :=
  mem_take_of_le (Nat.le_of_lt (length_lt_of_mem_take_right hxA hx)) hy

/-- Structural case analysis of process_file: either extraction failed and
the trace holds only the directory creations plus the extraction trace, or
the run succeeded and the trace is the directory creations, the extraction
trace, the archive move, an optional temporary-file removal, the sidecar
write beside the archive, and the staging copy, in that order; the emitted
sidecar carries the two clock readings of this run. -/
lemma process_file_cases (u : String → String) (cfg : EtlConfig) (o : ExtOracle)
    (srcExists : Bool) (cks t1 t2 srcPath relDir filename : String) :
    (∃ tr0, (∀ e ∈ tr0, ∃ p, e = Effect.createTmp p) ∧
      process_file u cfg o srcExists cks t1 t2 srcPath relDir filename
        = ([Effect.ensureDir (joinPath cfg.archiveDir relDir), Effect.ensureDir cfg.stagingDir]
            ++ tr0, Except.error ())) ∨
    (∃ tr0 cu sc, (∀ e ∈ tr0, ∃ p, e = Effect.createTmp p) ∧
      (∀ e ∈ cu, ∃ p, e = Effect.removeFile p) ∧
      sc.created_at = t1 ∧ sc.updated_at = t2 ∧
      process_file u cfg o srcExists cks t1 t2 srcPath relDir filename
        = ([Effect.ensureDir (joinPath cfg.archiveDir relDir), Effect.ensureDir cfg.stagingDir]
            ++ tr0
            ++ [Effect.moveFile srcPath (joinPath (joinPath cfg.archiveDir relDir) filename)]
            ++ cu
            ++ [Effect.writeSidecar
                  (joinPath (joinPath cfg.archiveDir relDir) ((splitext filename).1 ++ ".json")) sc,
                Effect.copySidecar
                  (joinPath (joinPath cfg.archiveDir relDir) ((splitext filename).1 ++ ".json"))
                  (joinPath cfg.stagingDir ((splitext filename).1 ++ ".json"))],
           Except.ok sc)) := by
  have hben := extract_text_trace_benign o ((splitext (lowerStr filename)).2)
  rcases hx : extract_text o ((splitext (lowerStr filename)).2) with ⟨tr0, r⟩
  rw [hx] at hben
  cases r with
  | error e =>
    left
    exact ⟨tr0, hben, by simp [process_file, hx]⟩
  | ok p =>
    rcases p with ⟨text, meta⟩
    right
    rcases hm : lookupA meta "ocr_output" with _ | tmp
    · refine ⟨tr0, [],
        build_sidecar u srcPath (joinPath (joinPath cfg.archiveDir relDir) filename)
          (if relDir = "" then "unknown" else (splitSlash relDir).headD "unknown")
          text meta cks srcExists t1 t2,
        hben, by simp, by simp [build_sidecar], by simp [build_sidecar], ?_⟩
      simp [process_file, hx, hm]
    · by_cases htmp : tmp = ""
      · refine ⟨tr0, [],
          build_sidecar u srcPath (joinPath (joinPath cfg.archiveDir relDir) filename)
            (if relDir = "" then "unknown" else (splitSlash relDir).headD "unknown")
            text meta cks srcExists t1 t2,
          hben, by simp, by simp [build_sidecar], by simp [build_sidecar], ?_⟩
        simp [process_file, hx, hm, htmp]
      · refine ⟨tr0, [Effect.removeFile tmp],
          build_sidecar u srcPath (joinPath (joinPath cfg.archiveDir relDir) filename)
            (if relDir = "" then "unknown" else (splitSlash relDir).headD "unknown")
            text meta cks srcExists t1 t2,
          hben, ?_, by simp [build_sidecar], by simp [build_sidecar], ?_⟩
        · intro e he
          simp at he
          exact ⟨tmp, he⟩
        · simp [process_file, hx, hm, htmp]

/-- Claim C1: for every input file the archive move is performed before the
sidecar write beside the archive, which is performed before the staging copy:
a successful run's trace contains all three, and in every partial run
(a prefix of the effect trace) a sidecar write implies the move already
happened and a staging copy implies both the move and the sidecar write
already happened — so no staging-queue entry ever exists for a file that was
not moved into the archive. -/
theorem c1_move_before_write_before_copy (u : String → String) (cfg : EtlConfig)
    (o : ExtOracle) (srcExists : Bool) (cks t1 t2 srcPath relDir filename : String) :
    (∀ s, (process_file u cfg o srcExists cks t1 t2 srcPath relDir filename).2 = Except.ok s →
      hasMove (process_file u cfg o srcExists cks t1 t2 srcPath relDir filename).1 ∧
      hasWrite (process_file u cfg o srcExists cks t1 t2 srcPath relDir filename).1 ∧
      hasCopy (process_file u cfg o srcExists cks t1 t2 srcPath relDir filename).1) ∧
    (∀ n,
      (hasWrite ((process_file u cfg o srcExists cks t1 t2 srcPath relDir filename).1.take n) →
        hasMove ((process_file u cfg o srcExists cks t1 t2 srcPath relDir filename).1.take n)) ∧
      (hasCopy ((process_file u cfg o srcExists cks t1 t2 srcPath relDir filename).1.take n) →
        hasMove ((process_file u cfg o srcExists cks t1 t2 srcPath relDir filename).1.take n) ∧
        hasWrite ((process_file u cfg o srcExists cks t1 t2 srcPath relDir filename).1.take n))) := by
  rcases process_file_cases u cfg o srcExists cks t1 t2 srcPath relDir filename with
    ⟨tr0, hben, heq⟩ | ⟨tr0, cu, sc, hben, hcu, _, _, heq⟩
  · constructor
    · intro s hs
      rw [heq] at hs
      simp at hs
    · intro n
      have hall : ∀ x ∈ ((process_file u cfg o srcExists cks t1 t2 srcPath relDir filename).1.take n),
          (∃ p, x = Effect.ensureDir p) ∨ ∃ p, x = Effect.createTmp p := by
        intro x hx
        have hx2 := List.take_subset _ _ hx
        rw [heq] at hx2
        simp only [List.mem_append] at hx2
        rcases hx2 with hx2 | hx2
        · left
          rcases (by simpa using hx2 : x = _ ∨ x = _) with h | h
          · exact ⟨_, h⟩
          · exact ⟨_, h⟩
        · exact Or.inr (hben x hx2)
      constructor
      · rintro ⟨a, s, ha⟩
        rcases hall _ ha with ⟨p, hp⟩ | ⟨p, hp⟩ <;> simp at hp
      · rintro ⟨a, b, ha⟩
        rcases hall _ ha with ⟨p, hp⟩ | ⟨p, hp⟩ <;> simp at hp
  · generalize hap : joinPath (joinPath cfg.archiveDir relDir) filename = ap at heq
    generalize hsap :
      joinPath (joinPath cfg.archiveDir relDir) ((splitext filename).1 ++ ".json") = sap at heq
    generalize hssp : joinPath cfg.stagingDir ((splitext filename).1 ++ ".json") = ssp at heq
    generalize had : joinPath cfg.archiveDir relDir = ad at heq
    have hA1 : ∀ x ∈ [Effect.ensureDir ad, Effect.ensureDir cfg.stagingDir] ++ tr0
        ++ [Effect.moveFile srcPath ap] ++ cu,
        (∃ p, x = Effect.ensureDir p) ∨ (∃ p, x = Effect.createTmp p)
          ∨ x = Effect.moveFile srcPath ap ∨ (∃ p, x = Effect.removeFile p) := by
      intro x hx
      rcases List.mem_append.mp hx with hx | hx
      · rcases List.mem_append.mp hx with hx | hx
        · rcases List.mem_append.mp hx with hx | hx
          · left
            rcases (by simpa using hx : x = _ ∨ x = _) with h | h
            · exact ⟨_, h⟩
            · exact ⟨_, h⟩
          · exact Or.inr (Or.inl (hben x hx))
        · exact Or.inr (Or.inr (Or.inl (by simpa using hx)))
      · exact Or.inr (Or.inr (Or.inr (hcu x hx)))
    have hnw : ∀ a s, Effect.writeSidecar a s ∉
        [Effect.ensureDir ad, Effect.ensureDir cfg.stagingDir] ++ tr0
          ++ [Effect.moveFile srcPath ap] ++ cu := by
      intro a s h
      rcases hA1 _ h with ⟨p, hp⟩ | ⟨p, hp⟩ | hp | ⟨p, hp⟩ <;> simp at hp
    have hnc : ∀ a b, Effect.copySidecar a b ∉
        ([Effect.ensureDir ad, Effect.ensureDir cfg.stagingDir] ++ tr0
          ++ [Effect.moveFile srcPath ap] ++ cu) ++ [Effect.writeSidecar sap sc] := by
      intro a b h
      rcases List.mem_append.mp h with h | h
      · rcases hA1 _ h with ⟨p, hp⟩ | ⟨p, hp⟩ | hp | ⟨p, hp⟩ <;> simp at hp
      · simp at h
    have hassoc :
        ([Effect.ensureDir ad, Effect.ensureDir cfg.stagingDir] ++ tr0
          ++ [Effect.moveFile srcPath ap] ++ cu)
          ++ [Effect.writeSidecar sap sc, Effect.copySidecar sap ssp]
        = (([Effect.ensureDir ad, Effect.ensureDir cfg.stagingDir] ++ tr0
            ++ [Effect.moveFile srcPath ap] ++ cu) ++ [Effect.writeSidecar sap sc])
          ++ [Effect.copySidecar sap ssp] := by
      simp
    constructor
    · intro s hs
      refine ⟨⟨srcPath, ap, ?_⟩, ⟨sap, sc, ?_⟩, ⟨sap, ssp, ?_⟩⟩ <;>
        (rw [heq]; simp)
    · intro n
      have hT : (process_file u cfg o srcExists cks t1 t2 srcPath relDir filename).1
          = ([Effect.ensureDir ad, Effect.ensureDir cfg.stagingDir] ++ tr0
              ++ [Effect.moveFile srcPath ap] ++ cu)
            ++ [Effect.writeSidecar sap sc, Effect.copySidecar sap ssp] := by
        rw [heq]
      constructor
      · rintro ⟨a, s, ha⟩
        rw [hT] at ha ⊢
        exact ⟨srcPath, ap, mem_take_trans (hnw a s) ha (by simp)⟩
      · rintro ⟨a, b, ha⟩
        rw [hT] at ha ⊢
        rw [hassoc] at ha ⊢
        exact ⟨⟨srcPath, ap, mem_take_trans (hnc a b) ha (by simp)⟩,
               ⟨sap, sc, mem_take_trans (hnc a b) ha (by simp)⟩⟩

lemma lookupA_insertW (st : List (String × Nat)) (k : String) (v : Nat) :
    lookupA (insertW st k v) k = some v := by
  induction st with
  | nil => simp [insertW, lookupA]
  | cons kv rest ih =>
    rcases kv with ⟨q, w⟩
    by_cases h : q = k <;> simp [insertW, lookupA, h, ih]

/-- ingest_json never deletes anything: the unlink belongs to
process_staging_file alone. -/
lemma ingest_json_no_unlink (o : EmbOracle) (p : String) (c : Option RawSidecar) :
    ∀ q, EmbEffect.unlink q ∉ (ingest_json o p c).1 := by
  intro q hq
  rcases c with _ | d
  · simp [ingest_json] at hq
  · by_cases ht : d.text = ""
    · simp [ingest_json, ht] at hq
    · rcases he : embed_text (o.embedResp d.text) with e | v
      · simp [ingest_json, ht, he] at hq
      · by_cases hu : o.upsertOk (ingestId o p d) <;> simp [ingest_json, ht, he, hu] at hq

/-! ### Claim theorems -/

/-- Claim C2: the stable identifier is a pure deterministic function of the
pair (archived path, content checksum): recomputing it on the same pair
yields the same identifier, and — assuming the abstract uuid5 digest u is
collision-free — pairs differing in either component yield different
identifiers.  Checksums are hex digests or empty, hence never contain the
bar separator of the hash input. -/
theorem c2_stable_id_pure_injective (u : String → String)
    (hu : ∀ x y, u x = u y → x = y) (p1 c1 p2 c2 : String)
    (h1 : ('|' : Char) ∉ c1.data) (h2 : ('|' : Char) ∉ c2.data)
    (hne : (p1, c1) ≠ (p2, c2)) :
    stable_id u p1 c1 = stable_id u p1 c1 ∧
    stable_id u p1 c1 ≠ stable_id u p2 c2 := by
  refine ⟨rfl, fun h => hne ?_⟩
  obtain ⟨hp, hc⟩ := sidecarKey_inj h1 h2 (hu _ _ h)
  rw [hp, hc]

/-- Witness for C2 at two concrete pairs differing in the checksum. -/
theorem c2_stable_id_pure_injective_witness :
    stable_id (fun s => s) "/app/archive/a.pdf" "00ff"
      = stable_id (fun s => s) "/app/archive/a.pdf" "00ff" ∧
    stable_id (fun s => s) "/app/archive/a.pdf" "00ff"
      ≠ stable_id (fun s => s) "/app/archive/a.pdf" "11ee" :=
  c2_stable_id_pure_injective (fun s => s) (fun _ _ h => h) "/app/archive/a.pdf" "00ff"
    "/app/archive/a.pdf" "11ee" (by decide) (by decide) (by decide)

/-- Witness for C1 at a concrete text file: the successful trace contains
move, write and copy, and the prefix that contains the staging copy also
contains the move and the sidecar write. -/
theorem c1_move_before_write_before_copy_witness :
    (hasMove (process_file uid cfgD oTxt true "c0" "T1" "T2"
        "/app/inbox/notes/a.txt" "notes" "a.txt").1 ∧
     hasWrite (process_file uid cfgD oTxt true "c0" "T1" "T2"
        "/app/inbox/notes/a.txt" "notes" "a.txt").1 ∧
     hasCopy (process_file uid cfgD oTxt true "c0" "T1" "T2"
        "/app/inbox/notes/a.txt" "notes" "a.txt").1) ∧
    (hasMove ((process_file uid cfgD oTxt true "c0" "T1" "T2"
        "/app/inbox/notes/a.txt" "notes" "a.txt").1.take 5) ∧
     hasWrite ((process_file uid cfgD oTxt true "c0" "T1" "T2"
        "/app/inbox/notes/a.txt" "notes" "a.txt").1.take 5)) :=
  ⟨(c1_move_before_write_before_copy uid cfgD oTxt true "c0" "T1" "T2"
      "/app/inbox/notes/a.txt" "notes" "a.txt").1
      ⟨"/app/archive/notes/a.txt|c0", "/app/inbox/notes/a.txt", "/app/archive/notes/a.txt",
       "notes", "a.txt", "c0", "T1", "T2", "note text", []⟩ (by decide),
   ((c1_move_before_write_before_copy uid cfgD oTxt true "c0" "T1" "T2"
      "/app/inbox/notes/a.txt" "notes" "a.txt").2 5).2
      ⟨"/app/archive/notes/a.json", "/app/staging/a.json", by decide⟩⟩

/-- Claim C10: every successfully processed PDF yields a sidecar whose
metadata maps ocr_output to the temporary OCR file's path, while the trace
removes that temporary file right after the archive move and before the
sidecar is written — the permanent record carries an already-deleted path. -/
theorem c10_sidecar_keeps_dangling_ocr_path (u : String → String) (cfg : EtlConfig)
    (o : ExtOracle) (srcExists : Bool) (cks t1 t2 srcPath relDir filename t : String)
    (hext : (splitext (lowerStr filename)).2 = ".pdf")
    (ho : o.ocrPdfText = some t) (htmp : ¬ o.tmpPath = "") :
    ∃ sc, process_file u cfg o srcExists cks t1 t2 srcPath relDir filename
        = ([Effect.ensureDir (joinPath cfg.archiveDir relDir), Effect.ensureDir cfg.stagingDir,
            Effect.createTmp o.tmpPath,
            Effect.moveFile srcPath (joinPath (joinPath cfg.archiveDir relDir) filename),
            Effect.removeFile o.tmpPath,
            Effect.writeSidecar
              (joinPath (joinPath cfg.archiveDir relDir) ((splitext filename).1 ++ ".json")) sc,
            Effect.copySidecar
              (joinPath (joinPath cfg.archiveDir relDir) ((splitext filename).1 ++ ".json"))
              (joinPath cfg.stagingDir ((splitext filename).1 ++ ".json"))],
           Except.ok sc) ∧
      lookupA sc.metadata "ocr_output" = some o.tmpPath := by
  refine ⟨build_sidecar u srcPath (joinPath (joinPath cfg.archiveDir relDir) filename)
      (if relDir = "" then "unknown" else (splitSlash relDir).headD "unknown")
      t [("ocr_output", o.tmpPath)] cks srcExists t1 t2, ?_, ?_⟩
  · simp [process_file, extract_text, ocr_pdf, hext, ho, htmp, PDF_EXTS, lookupA]
  · simp [build_sidecar, lookupA]

/-- Witness for C10 at a concrete scanned receipt. -/
theorem c10_sidecar_keeps_dangling_ocr_path_witness :
    ∃ sc, process_file uid cfgD oPdfOk true "c0" "T1" "T2"
        "/app/inbox/receipts/a.pdf" "receipts" "a.pdf"
        = ([Effect.ensureDir (joinPath cfgD.archiveDir "receipts"),
            Effect.ensureDir cfgD.stagingDir,
            Effect.createTmp oPdfOk.tmpPath,
            Effect.moveFile "/app/inbox/receipts/a.pdf"
              (joinPath (joinPath cfgD.archiveDir "receipts") "a.pdf"),
            Effect.removeFile oPdfOk.tmpPath,
            Effect.writeSidecar
              (joinPath (joinPath cfgD.archiveDir "receipts") ((splitext "a.pdf").1 ++ ".json")) sc,
            Effect.copySidecar
              (joinPath (joinPath cfgD.archiveDir "receipts") ((splitext "a.pdf").1 ++ ".json"))
              (joinPath cfgD.stagingDir ((splitext "a.pdf").1 ++ ".json"))],
           Except.ok sc) ∧
      lookupA sc.metadata "ocr_output" = some oPdfOk.tmpPath :=
  c10_sidecar_keeps_dangling_ocr_path uid cfgD oPdfOk true "c0" "T1" "T2"
    "/app/inbox/receipts/a.pdf" "receipts" "a.pdf" "hello" (by decide) rfl (by decide)

/-- Claim C4: the code leaks the temporary OCR file when extraction fails.
At a PDF input whose OCR run raises, the run's trace creates the temporary
file and contains no removal of any file: the Python finally block is empty
and the removal inside process_file is unreachable after the exception, so
the temporary OCR copy stays on disk, contrary to the documented intent that
it is deleted after success or failure. -/
theorem c4_ocr_tmpfile_leaked_on_failure :
    process_file uid cfgD oPdfFail true "c0" "T1" "T1"
        "/app/inbox/receipts/a.pdf" "receipts" "a.pdf"
      = ([Effect.ensureDir "/app/archive/receipts", Effect.ensureDir "/app/staging",
          Effect.createTmp "/tmp/ocr.pdf"], Except.error ()) ∧
    ∀ p, Effect.removeFile p ∉
      (process_file uid cfgD oPdfFail true "c0" "T1" "T1"
        "/app/inbox/receipts/a.pdf" "receipts" "a.pdf").1 := by
  have h : process_file uid cfgD oPdfFail true "c0" "T1" "T1"
      "/app/inbox/receipts/a.pdf" "receipts" "a.pdf"
      = ([Effect.ensureDir "/app/archive/receipts", Effect.ensureDir "/app/staging",
          Effect.createTmp "/tmp/ocr.pdf"], Except.error ()) := by decide
  refine ⟨h, fun p hp => ?_⟩
  rw [h] at hp
  simp at hp

/-- Claim C7 counterexample: the same document extracted at time T1 and
again at time T2 produces sidecars written to the same archived sidecar
path whose created_at fields are the two distinct extraction times — the
later ingestion overwrites created_at rather than keeping the first
extraction's value. -/
theorem c7_created_at_reset_counterexample :
    ∃ s1 s2,
      (process_file uid cfgD oTxt true "c0" "T1" "T1"
        "/app/inbox/notes/a.txt" "notes" "a.txt").2 = Except.ok s1 ∧
      (process_file uid cfgD oTxt true "c0" "T2" "T2"
        "/app/inbox/notes/a.txt" "notes" "a.txt").2 = Except.ok s2 ∧
      Effect.writeSidecar "/app/archive/notes/a.json" s1
        ∈ (process_file uid cfgD oTxt true "c0" "T1" "T1"
            "/app/inbox/notes/a.txt" "notes" "a.txt").1 ∧
      Effect.writeSidecar "/app/archive/notes/a.json" s2
        ∈ (process_file uid cfgD oTxt true "c0" "T2" "T2"
            "/app/inbox/notes/a.txt" "notes" "a.txt").1 ∧
      s1.created_at = "T1" ∧ s2.created_at = "T2" ∧ s1.created_at ≠ s2.created_at :=
  ⟨⟨"/app/archive/notes/a.txt|c0", "/app/inbox/notes/a.txt", "/app/archive/notes/a.txt",
    "notes", "a.txt", "c0", "T1", "T1", "note text", []⟩,
   ⟨"/app/archive/notes/a.txt|c0", "/app/inbox/notes/a.txt", "/app/archive/notes/a.txt",
    "notes", "a.txt", "c0", "T2", "T2", "note text", []⟩,
   by decide, by decide, by decide, by decide, rfl, rfl, by decide⟩

/-- Claim C7 amended: within the sync stage, re-ingesting a sidecar
preserves its created_at (when present) and refreshes only updated_at; but
the extraction orchestrator stamps every sidecar it builds with the current
clock readings, so re-extracting the same document through the ETL resets
created_at to the new extraction time. -/
theorem c7_created_at_policy (d : RawSidecar) (now t : String)
    (u : String → String) (cfg : EtlConfig) (o : ExtOracle) (srcExists : Bool)
    (cks t1 t2 srcPath relDir filename : String) :
    (d.created_at = some t →
      (props_of d now).created_at = t ∧ (props_of d now).updated_at = now) ∧
    (∀ sc, (process_file u cfg o srcExists cks t1 t2 srcPath relDir filename).2 = Except.ok sc →
      sc.created_at = t1 ∧ sc.updated_at = t2) := by
  constructor
  · intro h
    simp [props_of, h]
  · intro sc hsc
    rcases process_file_cases u cfg o srcExists cks t1 t2 srcPath relDir filename with
      ⟨tr0, _, heq⟩ | ⟨tr0, cu, sc2, _, _, hca, hua, heq⟩
    · rw [heq] at hsc
      simp at hsc
    · rw [heq] at hsc
      simp only [Except.ok.injEq] at hsc
      rw [← hsc]
      exact ⟨hca, hua⟩

/-- Witness for the amended C7: a sidecar carrying created_at C1 keeps it
through the sync stage while updated_at becomes the current time, and a
concrete ETL run stamps both fields with its own clock. -/
theorem c7_created_at_policy_witness :
    ((props_of rawHello "T9").created_at = "C1" ∧ (props_of rawHello "T9").updated_at = "T9") ∧
    (⟨"/app/archive/notes/a.txt|c0", "/app/inbox/notes/a.txt", "/app/archive/notes/a.txt",
      "notes", "a.txt", "c0", "T1", "T2", "note text", []⟩ : Sidecar).created_at = "T1" ∧
    (⟨"/app/archive/notes/a.txt|c0", "/app/inbox/notes/a.txt", "/app/archive/notes/a.txt",
      "notes", "a.txt", "c0", "T1", "T2", "note text", []⟩ : Sidecar).updated_at = "T2" :=
  ⟨(c7_created_at_policy rawHello "T9" "C1" uid cfgD oTxt true "c0" "T1" "T2"
      "/app/inbox/notes/a.txt" "notes" "a.txt").1 rfl,
   ((c7_created_at_policy rawHello "T9" "C1" uid cfgD oTxt true "c0" "T1" "T2"
      "/app/inbox/notes/a.txt" "notes" "a.txt").2
      ⟨"/app/archive/notes/a.txt|c0", "/app/inbox/notes/a.txt", "/app/archive/notes/a.txt",
       "notes", "a.txt", "c0", "T1", "T2", "note text", []⟩ (by decide)).1,
   ((c7_created_at_policy rawHello "T9" "C1" uid cfgD oTxt true "c0" "T1" "T2"
      "/app/inbox/notes/a.txt" "notes" "a.txt").2
      ⟨"/app/archive/notes/a.txt|c0", "/app/inbox/notes/a.txt", "/app/archive/notes/a.txt",
       "notes", "a.txt", "c0", "T1", "T2", "note text", []⟩ (by decide)).2⟩

/-- Claim C8: a staging sidecar whose text is the empty string is never sent
to the embedding generator and its processing raises no error: ingest_json
performs only a logged skip. -/
theorem c8_empty_text_never_embedded (o : EmbOracle) (path : String) (d : RawSidecar)
    (h : d.text = "") :
    ingest_json o path (some d) = ([EmbEffect.logSkip path], Except.ok ()) ∧
    ∀ t, EmbEffect.embedCall t ∉ (ingest_json o path (some d)).1 := by
  have he : ingest_json o path (some d) = ([EmbEffect.logSkip path], Except.ok ()) := by
    simp [ingest_json, h]
  refine ⟨he, fun t ht => ?_⟩
  rw [he] at ht
  simp at ht

/-- Witness for C8 at a concrete empty-text staging sidecar. -/
theorem c8_empty_text_never_embedded_witness :
    ingest_json embAllOk "/app/staging/e.json" (some rawEmpty)
      = ([EmbEffect.logSkip "/app/staging/e.json"], Except.ok ()) ∧
    ∀ t, EmbEffect.embedCall t ∉
      (ingest_json embAllOk "/app/staging/e.json" (some rawEmpty)).1 :=
  c8_empty_text_never_embedded embAllOk "/app/staging/e.json" rawEmpty rfl

/-- Claim C9 counterexample: with no embedding service configured or
reachable (the HTTP request raises, modelled by a missing response),
embed_text raises an error and returns no vector at all — the code has no
deterministic hash-expansion fallback. -/
theorem c9_no_fallback_counterexample :
    embed_text none = Except.error () ∧ ∀ v : List Int, embed_text none ≠ Except.ok v :=
  ⟨rfl, fun v h => by simp [embed_text] at h⟩

/-- Claim C9 amended: embed_text yields a vector only from a successful
embedding-service response; when the service is unreachable, answers with a
non-200 status, or returns no embedding list, it raises an error instead of
deriving any fallback vector. -/
theorem c9_embed_text_no_fallback (r : EmbedResponse) :
    embed_text none = Except.error () ∧
    (r.status ≠ 200 → embed_text (some r) = Except.error ()) ∧
    (r.status = 200 → r.embedding = none → embed_text (some r) = Except.error ()) ∧
    (∀ v, r.status = 200 → r.embedding = some v → embed_text (some r) = Except.ok v) :=
  ⟨rfl, fun h => by simp [embed_text, h], fun h hv => by simp [embed_text, h, hv],
   fun v h hv => by simp [embed_text, h, hv]⟩

/-- Witness for the amended C9 at a concrete failing response. -/
theorem c9_embed_text_no_fallback_witness :
    embed_text (some ⟨500, none⟩) = Except.error () :=
  (c9_embed_text_no_fallback ⟨500, none⟩).2.1 (by decide)

/-- Claim C3 counterexample: a staging sidecar with empty text is deleted by
the consumer although no upsert was performed for it, so deletion is not
conditional on a successful upsert. -/
theorem c3_deleted_without_upsert_counterexample :
    process_staging_file embAllOk "/app/staging/e.json" (some rawEmpty)
      = ([EmbEffect.logSkip "/app/staging/e.json", EmbEffect.unlink "/app/staging/e.json"],
         Except.ok ()) ∧
    ∀ i pr, EmbEffect.upsertAttempt i pr ∉
      (process_staging_file embAllOk "/app/staging/e.json" (some rawEmpty)).1 := by
  have h : process_staging_file embAllOk "/app/staging/e.json" (some rawEmpty)
      = ([EmbEffect.logSkip "/app/staging/e.json", EmbEffect.unlink "/app/staging/e.json"],
         Except.ok ()) := by decide
  refine ⟨h, fun i pr hp => ?_⟩
  rw [h] at hp
  simp at hp

/-- Claim C3 amended: the consumer deletes a staging file only when
ingest_json returned without error — after a successful upsert for
non-empty-text sidecars, and also after the logged empty-text skip that
performs no upsert; on an embed failure, an upsert failure or unparsable
JSON the file is retained (never unlinked), the failure is logged, and the
remaining staging files of the same scan are still processed. -/
theorem c3_staging_delete_policy (o : EmbOracle) (p : String) (d : RawSidecar)
    (rest : List (String × Option RawSidecar)) (v : List Int) :
    (d.text = "" →
      process_staging_file o p (some d)
        = ([EmbEffect.logSkip p, EmbEffect.unlink p], Except.ok ())) ∧
    (d.text ≠ "" → embed_text (o.embedResp d.text) = Except.ok v →
     o.upsertOk (ingestId o p d) = true →
      process_staging_file o p (some d)
        = ([EmbEffect.embedCall d.text,
            EmbEffect.upsertAttempt (ingestId o p d) (props_of d o.now),
            EmbEffect.unlink p], Except.ok ())) ∧
    (d.text ≠ "" → embed_text (o.embedResp d.text) = Except.ok v →
     o.upsertOk (ingestId o p d) = false →
      EmbEffect.unlink p ∉ (process_staging_file o p (some d)).1 ∧
      scan_staging o ((p, some d) :: rest)
        = [EmbEffect.embedCall d.text,
           EmbEffect.upsertAttempt (ingestId o p d) (props_of d o.now),
           EmbEffect.logEmbFail p] ++ scan_staging o rest) ∧
    (d.text ≠ "" → embed_text (o.embedResp d.text) = Except.error () →
      EmbEffect.unlink p ∉ (process_staging_file o p (some d)).1 ∧
      scan_staging o ((p, some d) :: rest)
        = [EmbEffect.embedCall d.text, EmbEffect.logEmbFail p] ++ scan_staging o rest) ∧
    (process_staging_file o p none = ([], Except.error ()) ∧
     scan_staging o ((p, none) :: rest)
       = EmbEffect.logEmbFail p :: scan_staging o rest) := by
  refine ⟨?_, ?_, ?_, ?_, ?_⟩
  · intro ht
    simp [process_staging_file, ingest_json, ht]
  · intro ht hv hu
    simp [process_staging_file, ingest_json, ht, hv, hu]
  · intro ht hv hu
    constructor
    · intro hq
      have := ingest_json_no_unlink o p (some d) p
      apply this
      have he : (process_staging_file o p (some d)).1 = (ingest_json o p (some d)).1 := by
        simp [process_staging_file, ingest_json, ht, hv, hu]
      rwa [he] at hq
    · simp [scan_staging, process_staging_file, ingest_json, ht, hv, hu]
  · intro ht hv
    constructor
    · intro hq
      have := ingest_json_no_unlink o p (some d) p
      apply this
      have he : (process_staging_file o p (some d)).1 = (ingest_json o p (some d)).1 := by
        simp [process_staging_file, ingest_json, ht, hv]
      rwa [he] at hq
    · simp [scan_staging, process_staging_file, ingest_json, ht, hv]
  · constructor
    · simp [process_staging_file, ingest_json]
    · simp [scan_staging, process_staging_file, ingest_json]

/-- Witness for the amended C3: a healthy run on a non-empty sidecar embeds,
upserts and only then deletes the staging file. -/
theorem c3_staging_delete_policy_witness :
    process_staging_file embAllOk "/app/staging/h.json" (some rawHello)
      = ([EmbEffect.embedCall "hello",
          EmbEffect.upsertAttempt (ingestId embAllOk "/app/staging/h.json" rawHello)
            (props_of rawHello embAllOk.now),
          EmbEffect.unlink "/app/staging/h.json"], Except.ok ()) :=
  (c3_staging_delete_policy embAllOk "/app/staging/h.json" rawHello [] [1, 2]).2.1
    (by decide) rfl rfl

/-- Claim C5: a visited active file whose modification time is not newer
than its stored watermark is skipped with zero upserts and an unchanged
state; the watermark is advanced to the observed mtime exactly when the
upsert succeeds — on a failed upsert the state passed on is unchanged, so
the file is retried on the next poll — and after a successful sync a second
observation of the same mtime is skipped with zero upserts. -/
theorem c5_watermark_policy (o : EmbOracle) (f : ActiveFile)
    (rest rest2 : List ActiveFile) (st : List (String × Nat)) (w : Nat) (text : String)
    (v : List Int) (hdir : f.isDir = false)
    (hsuf : f.suffix = ".md" ∨ f.suffix = ".txt") :
    (lookupA st f.path = some w → f.mtime ≤ w →
      scan_active_files o (f :: rest) st = scan_active_files o rest st) ∧
    (isStale st f.path f.mtime = false → f.readText = some text →
     embed_text (o.embedResp text) = Except.ok v →
     o.upsertOk (normalize_uuid o f.path) = true →
      scan_active_files o (f :: rest) st
        = ((scan_active_files o rest (insertW st f.path f.mtime)).1,
           EmbEffect.embedCall text ::
             EmbEffect.upsertAttempt (normalize_uuid o f.path) (activeProps o f.path text) ::
             (scan_active_files o rest (insertW st f.path f.mtime)).2.1,
           (scan_active_files o rest (insertW st f.path f.mtime)).2.2)) ∧
    (isStale st f.path f.mtime = false → f.readText = some text →
     embed_text (o.embedResp text) = Except.ok v →
     o.upsertOk (normalize_uuid o f.path) = false →
      scan_active_files o (f :: rest) st
        = ((scan_active_files o rest st).1,
           EmbEffect.embedCall text ::
             EmbEffect.upsertAttempt (normalize_uuid o f.path) (activeProps o f.path text) ::
             EmbEffect.logEmbFail f.path :: (scan_active_files o rest st).2.1,
           (scan_active_files o rest st).2.2)) ∧
    (scan_active_files o (f :: rest2) (insertW st f.path f.mtime)
      = scan_active_files o rest2 (insertW st f.path f.mtime)) := by
  have hguard : ¬ (f.isDir = true ∨ (f.suffix ≠ ".md" ∧ f.suffix ≠ ".txt")) := by
    rcases hsuf with h | h <;> simp [hdir, h]
  refine ⟨?_, ?_, ?_, ?_⟩
  · intro hl hw
    have hst : isStale st f.path f.mtime = true := by simp [isStale, hl, hw]
    simp [scan_active_files, hguard, hst]
  · intro hfresh hread hembed hup
    simp [scan_active_files, hguard, hfresh, hread, hembed, hup]
  · intro hfresh hread hembed hup
    simp [scan_active_files, hguard, hfresh, hread, hembed, hup]
  · have hst : isStale (insertW st f.path f.mtime) f.path f.mtime = true := by
      simp [isStale, lookupA_insertW]
    simp [scan_active_files, hguard, hst]

/-- Witness for C5: a file already recorded with a newer watermark is
skipped, contributing no effects to the scan. -/
theorem c5_watermark_policy_witness :
    scan_active_files embAllOk [fileA] [("/app/active_docs/a.md", 9)]
      = scan_active_files embAllOk [] [("/app/active_docs/a.md", 9)] :=
  (c5_watermark_policy embAllOk fileA [] [] [("/app/active_docs/a.md", 9)] 9 "hello" [1, 2]
    rfl (Or.inl rfl)).1 (by decide) (by decide)

/-- Claim C6 counterexample: with the embedding service unreachable, the
active-watch re-scan raises out of the loop body: the first active file's
embed call fails, the second file is never visited, nothing is logged, and
the error escapes the poll iteration — the polling loop crashes instead of
isolating the failure. -/
theorem c6_active_embed_failure_crashes_loop :
    poll_iteration embSvcDown [] [fileA, fileB] []
      = ([EmbEffect.embedCall "hello"], Except.error ()) ∧
    EmbEffect.embedCall "world" ∉ (poll_iteration embSvcDown [] [fileA, fileB] []).1 ∧
    EmbEffect.logEmbFail "/app/active_docs/a.md"
      ∉ (poll_iteration embSvcDown [] [fileA, fileB] []).1 := by
  have h : poll_iteration embSvcDown [] [fileA, fileB] []
      = ([EmbEffect.embedCall "hello"], Except.error ()) := by decide
  refine ⟨h, ?_, ?_⟩ <;> (rw [h]; decide)

/-- Claim C6 amended: transient per-file failures are logged and isolated —
the item stays in its pre-processing location and the scan continues —
during inbox extraction and staging consumption, and for vector-index
upsert failures during the active re-scan; but a file-read or embedding
failure during the active-watch re-scan propagates, skipping the remaining
files of that scan and escaping the polling loop body. -/
theorem c6_failure_isolation_policy (u : String → String) (cfg : EtlConfig)
    (e : InboxEntry) (erest : List InboxEntry) (tr : List Effect)
    (o : EmbOracle) (p : String) (c : Option RawSidecar)
    (srest : List (String × Option RawSidecar)) (str2 : List EmbEffect)
    (f : ActiveFile) (arest : List ActiveFile) (st : List (String × Nat))
    (staging : List (String × Option RawSidecar)) (text : String) (v : List Int)
    (hdir : f.isDir = false) (hsuf : f.suffix = ".md" ∨ f.suffix = ".txt")
    (hfresh : isStale st f.path f.mtime = false) :
    (startsWithDot e.name = false →
     process_file u cfg e.oracle e.srcExists e.cks e.t1 e.t2 e.srcPath e.relDir e.name
       = (tr, Except.error ()) →
      scan_once u cfg (e :: erest)
        = tr ++ [Effect.logFail e.srcPath] ++ scan_once u cfg erest ∧
      ∀ a b, Effect.moveFile a b ∉ tr) ∧
    (process_staging_file o p c = (str2, Except.error ()) →
      scan_staging o ((p, c) :: srest)
        = str2 ++ [EmbEffect.logEmbFail p] ++ scan_staging o srest ∧
      ∀ q, EmbEffect.unlink q ∉ str2) ∧
    (f.readText = some text → embed_text (o.embedResp text) = Except.ok v →
     o.upsertOk (normalize_uuid o f.path) = false →
      (scan_active_files o (f :: arest) st).2.2 = (scan_active_files o arest st).2.2 ∧
      EmbEffect.logEmbFail f.path ∈ (scan_active_files o (f :: arest) st).2.1) ∧
    (f.readText = some text → embed_text (o.embedResp text) = Except.error () →
      scan_active_files o (f :: arest) st = (st, [EmbEffect.embedCall text], Except.error ()) ∧
      poll_iteration o staging (f :: arest) st
        = (scan_staging o staging ++ [EmbEffect.embedCall text], Except.error ())) ∧
    (f.readText = none →
      scan_active_files o (f :: arest) st = (st, [], Except.error ()) ∧
      poll_iteration o staging (f :: arest) st
        = (scan_staging o staging, Except.error ())) := by
  have hguard : ¬ (f.isDir = true ∨ (f.suffix ≠ ".md" ∧ f.suffix ≠ ".txt")) := by
    rcases hsuf with h | h <;> simp [hdir, h]
  refine ⟨?_, ?_, ?_, ?_, ?_⟩
  · intro hhid hpf
    refine ⟨by simp [scan_once, hhid, hpf], ?_⟩
    intro a b hab
    rcases process_file_cases u cfg e.oracle e.srcExists e.cks e.t1 e.t2 e.srcPath e.relDir e.name
      with ⟨tr0, hben, heq⟩ | ⟨tr0, cu, sc, _, _, _, _, heq⟩
    · rw [hpf] at heq
      have htr := congrArg Prod.fst heq
      simp only [] at htr
      rw [htr] at hab
      rcases List.mem_append.mp hab with h | h
      · simp at h
      · obtain ⟨q, hq⟩ := hben _ h
        simp at hq
    · rw [hpf] at heq
      have := congrArg Prod.snd heq
      simp at this
  · intro hps
    refine ⟨by simp [scan_staging, hps], ?_⟩
    intro q hq
    rcases hi : ingest_json o p c with ⟨tri, ri⟩
    cases ri with
    | ok x =>
      have h2 := hps
      simp [process_staging_file, hi] at h2
    | error x =>
      have h2 := hps
      simp [process_staging_file, hi] at h2
      have h3 := ingest_json_no_unlink o p c q
      rw [hi] at h3
      simp only [] at h3
      rw [h2] at h3
      exact h3 hq
  · intro hread hembed hup
    simp [scan_active_files, hguard, hfresh, hread, hembed, hup]
  · intro hread hembed
    have hscan : scan_active_files o (f :: arest) st
        = (st, [EmbEffect.embedCall text], Except.error ()) := by
      simp [scan_active_files, hguard, hfresh, hread, hembed]
    exact ⟨hscan, by simp [poll_iteration, hscan]⟩
  · intro hread
    have hscan : scan_active_files o (f :: arest) st = (st, [], Except.error ()) := by
      simp [scan_active_files, hguard, hfresh, hread]
    exact ⟨hscan, by simp [poll_iteration, hscan]⟩

/-- Witness for the amended C6: an unparsable staging file is logged, kept
in place, and the scan proceeds to the next staging file; and an unreadable
active file aborts the active scan, the error escaping the poll iteration. -/
theorem c6_failure_isolation_policy_witness :
    (scan_staging embAllOk
        [("/app/staging/bad.json", none), ("/app/staging/h.json", some rawHello)]
      = [] ++ [EmbEffect.logEmbFail "/app/staging/bad.json"]
          ++ scan_staging embAllOk [("/app/staging/h.json", some rawHello)] ∧
     ∀ q, EmbEffect.unlink q ∉ ([] : List EmbEffect)) ∧
    (scan_active_files embAllOk [fileBad, fileB] [] = ([], [], Except.error ()) ∧
     poll_iteration embAllOk [] [fileBad, fileB] []
       = (scan_staging embAllOk [], Except.error ())) :=
  ⟨(c6_failure_isolation_policy uid cfgD
      ⟨"/app/inbox/x", "", "x", true, "c", "T", "T", oTxt⟩ [] []
      embAllOk "/app/staging/bad.json" none
      [("/app/staging/h.json", some rawHello)] []
      fileA [] [] [] "hello" [1, 2] rfl (Or.inl rfl) rfl).2.1 (by decide),
   (c6_failure_isolation_policy uid cfgD
      ⟨"/app/inbox/x", "", "x", true, "c", "T", "T", oTxt⟩ [] []
      embAllOk "/app/staging/bad.json" none
      [("/app/staging/h.json", some rawHello)] []
      fileBad [fileB] [] [] "hello" [1, 2] rfl (Or.inl rfl) rfl).2.2.2.2 rfl⟩

end RAGStack
